import Mathlib

/-!
Verification development for the streaming PPO price extractor
(`cmd/extract/main.go`).  The Go program is shallowly embedded: pure
string manipulation becomes Lean functions on `String` / `List Char`,
the streaming JSON walker becomes a traversal of an explicit JSON value
type with the same field dispatch and the same error messages, and the
external classification service becomes an oracle parameter returning
`Option Bool` (`none` models a call that returned an error).
-/

/-! ## String primitives (models of the Go standard library pieces used) -/

/-- Model of `strings.ToLower` restricted to ASCII case mapping (all table
entries and inputs of interest are ASCII). -/
def goToLower (s : String) : String := ⟨s.data.map Char.toLower⟩

/-- Pattern `pat` occurs at the head of the character list. -/
def leadsWith : List Char → List Char → Bool
  | [], _ => true
  | _ :: _, [] => false
  | p :: ps, c :: cs => p == c && leadsWith ps cs

/-- Pattern occurs somewhere in the character list. -/
def containsSeq (pat : List Char) : List Char → Bool
  | [] => leadsWith pat []
  | c :: cs => leadsWith pat (c :: cs) || containsSeq pat cs

/-- Model of `strings.Contains s sub`. -/
def goContains (s sub : String) : Bool := containsSeq sub.data s.data

/-- Model of `strings.Index s "_"` (byte index of the first occurrence,
`none` for Go result `-1`). -/
def strIndex (t : Char) : List Char → Option Nat
  | [] => none
  | c :: cs => if c == t then some 0 else (strIndex t cs).map (fun i => i + 1)

/-- Number of occurrences of a character. -/
def charCount (t : Char) (cs : List Char) : Nat := cs.countP (fun c => c == t)

/-- Number of underscores in a string (used to state the separator claims). -/
def underscoreCount (s : String) : Nat := charCount '_' s.data

def dropTrailingSlashes (cs : List Char) : List Char :=
  (cs.reverse.dropWhile (fun c => c == '/')).reverse

def afterLastSlash (cs : List Char) : List Char :=
  (cs.reverse.takeWhile (fun c => !(c == '/'))).reverse

/-- Model of Go `path.Base`: `"."` for the empty path, strip trailing
slashes, keep the part after the last slash, `"/"` if nothing is left. -/
def pathBase (p : String) : String :=
  if p = "" then "."
  else
    let cs := dropTrailingSlashes p.data
    let base := afterLastSlash cs
    if base = [] then "/" else ⟨base⟩

/-- Model of the `.Path` field produced by `url.Parse` for the simple
absolute URLs this program receives (`scheme://host/path`, no query,
fragment, user info or percent escapes): everything from the first `/`
after the `://` authority marker.  A string without `://` is treated as
a bare path. -/
def urlPath (raw : String) : String :=
  match go raw.data with
  | some rest => ⟨rest.dropWhile (fun c => !(c == '/'))⟩
  | none => raw
where
  go : List Char → Option (List Char)
    | ':' :: '/' :: '/' :: rest => some rest
    | _ :: cs => go cs
    | [] => none

/-! ## Plan code extraction (`ExtractPlanCode`) -/

/-- The classified failures of `ExtractPlanCode`, one per distinct error
message in the source:
`noFilename` = "no filename found in URL path",
`noUnderscores` = "filename does not contain underscores",
`notEnoughUnderscores` = "filename does not contain enough underscores",
`invalidSeparatorSpacing` = "invalid underscore positions in filename". -/
inductive PlanCodeError where
  | noFilename
  | noUnderscores
  | notEnoughUnderscores
  | invalidSeparatorSpacing
deriving DecidableEq, Repr

/-- The spec groups the two "not enough `_`" messages as the
`InsufficientSeparators` class. -/
def insufficientSeparatorsClass : PlanCodeError → Bool
  | .noUnderscores => true
  | .notEnoughUnderscores => true
  | _ => false

/-- The underscore-scanning part of `ExtractPlanCode`, after the filename
has been taken from the URL path.  Mirrors the Go index arithmetic:
`second` and `third` are found in suffixes and rebased, the guard
`third <= first+1` raises the invalid-spacing error, and the result is
`filename[first+1 : third]`. -/
def extractFromFilename (filename : List Char) : Except PlanCodeError (List Char) :=
  match strIndex '_' filename with
  | none => .error .noUnderscores
  | some first =>
    match strIndex '_' (filename.drop (first + 1)) with
    | none => .error .notEnoughUnderscores
    | some s2 =>
      let second := s2 + (first + 1)
      match strIndex '_' (filename.drop (second + 1)) with
      | none => .error .notEnoughUnderscores
      | some t3 =>
        let third := t3 + (second + 1)
        if third ≤ first + 1 then .error .invalidSeparatorSpacing
        else .ok ((filename.take third).drop (first + 1))

/-- `ExtractPlanCode` applied to an already-parsed URL path. -/
def ExtractPlanCodePath (p : String) : Except PlanCodeError String :=
  let filename := pathBase p
  if filename = "" ∨ filename = "/" then .error .noFilename
  else (extractFromFilename filename.data).map (fun cs => ⟨cs⟩)

/-- `ExtractPlanCode` on a raw URL: parse the URL (modelled by `urlPath`)
and extract from the final path segment. -/
def ExtractPlanCode (rawURL : String) : Except PlanCodeError String :=
  ExtractPlanCodePath (urlPath rawURL)

/-- True exactly when the result is the invalid-spacing failure. -/
def isInvalidSpacing : Except PlanCodeError String → Bool
  | .error .invalidSeparatorSpacing => true
  | _ => false

/-! ## The static heuristic tables -/

/-- The keys of the global `ppoPlansMap` literal, verbatim. -/
def ppoPlansMap : List String := [
  "regence bs idaho : par providers",
  "bcbs kansas city : preferred care blue",
  "bs california : blue high performance",
  "bcbs tennessee, inc. : network c",
  "hcsc: bcbs texas : blue high performance",
  "arkansas bcbs : true blue ppo",
  "bcbs massachusetts : blue care elect",
  "carefirst bcbs : par network",
  "bcbs michigan : par providers",
  "bcbs south carolina : blue high performance",
  "bcbs louisiana : blue hpn",
  "premera bc : heritage prime",
  "highmark bs : highmark bs network",
  "bcbs north carolina : comprehensive major medical network (cmmn)",
  "regence blueshield : regence-67e0",
  "florida blue: bcbs florida : pps",
  "hcsc: bcbs new mexico : new mexico bluecard ppo",
  "bcbs alabama : blue high performance",
  "bcbs michigan : blue high performance",
  "bcbs south carolina : preferred blue",
  "highmark bs northeastern ny : highmark blue shield of northeastern new york - ppo",
  "highmark bcbs delaware : blue choice",
  "premera bc : prudentbuyer washington",
  "hcsc: bcbs illinois : blue high performance",
  "highmark bcbs : highmark bcbs network",
  "bcbs kansas : blue choice",
  "independence bc : par network",
  "hcsc: bcbs montana : par network",
  "premera bc : heritage signature",
  "bcbs massachusetts : blue high performance",
  "carefirst bcbs : blue precision",
  "bcbs mississippi : par network",
  "florida blue: bcbs florida : networkblue",
  "independence bc : personal choice",
  "regence blueshield : bluecard ppo",
  "bcbs arizona : blue preferred",
  "bcbs alabama : par network",
  "bcbs vermont : new england health plans (nehp)",
  "bcbs hawaii : preferred provider network",
  "florida blue: triple-s (pr) : bluecard ppo",
  "bcbs kansas : traditional providers",
  "horizon bcbs new jersey, inc. : select hospitals/par physicians",
  "bcbs north carolina : blue high performance",
  "hcsc: bcbs illinois : participating provider option",
  "hcsc: bcbs montana : ppo network",
  "highmark bs northeastern ny : highmark blue shield of northeastern new york traditional",
  "independence bc : personal choice limited",
  "highmark bs : community blue premier",
  "bcbs kansas city : participating network",
  "premera bc : traditional",
  "regence bcbs utah : preferred blue option",
  "health service coalition of nevada (hsc) rates",
  "bcbs wyoming : wyoming total choice",
  "regence bs idaho : blue shield preferred providers",
  "regence bcbs oregon : oregon high performance",
  "capital bc : capital blue cross ppo",
  "bcbs wyoming : par network",
  "arkansas bcbs : ppp network",
  "excellus bcbs : blueppo",
  "bc idaho : participating provider network",
  "highmark bcbs western ny : highmark blue cross blue shield of western new york - hpn",
  "bcbs kansas city : blueselect plus",
  "hcsc: bcbs texas : participating providers",
  "bcbs north carolina : preferred provider network (ppn)",
  "highmark bcbs wv : west virginia par providers",
  "bs california : ppo network",
  "bcbs kansas city : blue high performance",
  "bcbs vermont : bcbsvt par providers",
  "carefirst bcbs : blueessential",
  "capital bc : blue high performance",
  "bcbs north carolina : blue value (lcst)",
  "bc idaho : preferred blue",
  "highmark bcbs wv : super blue plus",
  "premera bc : heritage",
  "bcbs tennessee, inc. : network p",
  "bcbs alabama : preferred care",
  "wellmark bcbs iowa : alliance select",
  "highmark bcbs western ny : highmark blue cross blue shield of western new york-traditional",
  "premera bc : blue high performance state-wide",
  "carefirst bcbs : alternate network",
  "bcbs wyoming : blue select",
  "bcbs arizona : alliance",
  "hcsc: bcbs illinois : blue choice options",
  "in-network negotiated rates files",
  "hcsc: bcbs oklahoma : bluechoice ppo",
  "hcsc: bcbs illinois : bcbs of illinois par providers",
  "bcbs north dakota : preferred blue ppo",
  "bcbs louisiana : preferred care",
  "hcsc: bcbs new mexico : new mexico par network",
  "florida blue: triple-s (pr) : participating providers",
  "regence blueshield : blue high performance",
  "capital bc : capital blue cross traditional",
  "florida blue: bcbs florida : ppc / ppo network",
  "bcbs tennessee, inc. : network s",
  "highmark bcbs : community blue",
  "bcbs michigan : trust",
  "dental vision",
  "hcsc: bcbs oklahoma : blue traditional",
  "bcbs hawaii : participating provider network",
  "bcbs massachusetts : par providers",
  "bcbs minnesota : high value",
  "highmark bs : pa national performance blue",
  "bcbs nebraska : blueprint health",
  "carefirst bcbs : select preferred provider",
  "highmark bcbs western ny : highmark bluecross blueshield of western new york-ppo",
  "bcbs nebraska : network blue",
  "bcbs minnesota : aware",
  "bcbs kansas city : preferred care ppo",
  "florida blue: triple-s (vi) : usvi-62a0",
  "highmark bcbs delaware : blue classic",
  "hcsc: bcbs oklahoma : blue preferred"]

/-- The keys of the global `regionCodes` map literal (lower-cased in the
source). -/
def regionCodes : List String := ["301_71a0", "302_42b0", "254_39b0", "800_72a0"]

/-- The keys of the `regionCodes` map literal declared locally inside
`checkInNetworkFiles` (analysis / AssistedMatch mode), which shadows the
global table; its entries are upper-cased in the source. -/
def analysisRegionCodes : List String := ["301_71A0", "302_42B0", "254_39B0", "800_72A0"]

/-! ## Decoded record data -/

/-- One `in_network_files` entry as decoded by the Go struct
`{Description, Location string}`. -/
structure FileRef where
  description : String
  location : String
deriving DecidableEq, Repr

/-- One `reporting_plans` entry as decoded by the Go struct
`{Type "plan_id_type", Id "plan_id"}`. -/
structure ReportingPlan where
  planIdType : String
  planId : String
deriving DecidableEq, Repr

/-- The record printed by `printMatch` (field order of the Go output
struct; `heuristicMatch` receives the `naiveMatch` signal). -/
structure MatchResult where
  description : String
  location : String
  eins : List String
  aiMatch : Bool
  heuristicMatch : Bool
  regionCodeMatch : Bool
deriving DecidableEq, Repr

/-- Go map insertion on a set of strings, modelled as a duplicate-free
list (iteration order of a Go map is arbitrary, so only membership and
uniqueness are meaningful). -/
def insertSet (s : List String) (x : String) : List String :=
  if x ∈ s then s else x :: s

/-! ## Mode handlers on decoded values -/

/-- Body of the `getUniquePlans` loop for one decoded description:
lower-case, compare against the placeholder literal, otherwise insert
into `plansFound`. -/
def uniquePlansStep (acc : List String) (desc : String) : List String :=
  let lowerDesc := goToLower desc
  if lowerDesc = "In-Network Negotiated Rates Files" then acc
  else insertSet acc lowerDesc

/-- `plansFound` contents after running `getUniquePlans` over a list of
decoded descriptions, starting from the empty set. -/
def getUniquePlansList (descs : List String) : List String :=
  descs.foldl uniquePlansStep []

/-- `planMatch` of the heuristics loop: table membership of the
lower-cased description in `ppoPlansMap`. -/
def planMatchHeuristics (f : FileRef) : Bool :=
  ppoPlansMap.contains (goToLower f.description)

/-- `regionCodeMatch` of the heuristics loop: extraction succeeds and the
lower-cased code is in the global (lower-cased) `regionCodes` table. -/
def regionMatchHeuristics (f : FileRef) : Bool :=
  match ExtractPlanCode f.location with
  | .ok code => regionCodes.contains (goToLower code)
  | .error _ => false

/-- Body of the `getPpoPricesByHeuristics` loop for one decoded file
reference: the table membership of the description is a hard gate
(the Go `continue`), and the location joins `uniquePpoPrices` only when
both signals hold. -/
def heuristicsStep (acc : List String) (f : FileRef) : List String :=
  if planMatchHeuristics f then
    if regionMatchHeuristics f then insertSet acc f.location else acc
  else acc

/-- `uniquePpoPrices` contents after running the heuristics loop over a
list of decoded file references, starting from the empty set. -/
def getPpoPricesByHeuristicsList (files : List FileRef) : List String :=
  files.foldl heuristicsStep []

/-- The external classification service, as seen through `doLlmQuery`:
one question per call, `none` models an error from the service and
`some b` a parsed boolean verdict. -/
structure Oracle where
  isNewYork : String → Option Bool
  isPpo : String → Option Bool

/-- The service that errors on every call. -/
def oracleAlwaysError : Oracle := ⟨fun _ => none, fun _ => none⟩

/-- `naiveMatch` of `checkInNetworkFiles`: the lower-cased description
contains a region hint and a plan-type hint. -/
def naiveMatchAnalysis (f : FileRef) : Bool :=
  let lowerDesc := goToLower f.description
  (goContains lowerDesc "ny" || goContains lowerDesc "new york")
    && (goContains lowerDesc "ppo" || goContains lowerDesc "preferred")

/-- `regionCodeMatch` of `checkInNetworkFiles`: extraction succeeds and
the lower-cased code is in the mode-local `analysisRegionCodes` table. -/
def regionMatchAnalysis (f : FileRef) : Bool :=
  match ExtractPlanCode f.location with
  | .ok code => analysisRegionCodes.contains (goToLower code)
  | .error _ => false

/-- `aiMatch` of `checkInNetworkFiles`: the New-York question must
succeed and answer true, and only then the PPO question must succeed and
answer true; a service error anywhere leaves the signal false. -/
def aiMatchAnalysis (o : Oracle) (f : FileRef) : Bool :=
  match o.isNewYork f.description with
  | some true =>
    match o.isPpo f.description with
    | some true => true
    | _ => false
  | _ => false

/-- Body of the `checkInNetworkFiles` loop for one decoded file
reference: `planMatch` is the OR of the three signals and a
`MatchResult` is printed exactly when it holds, carrying the correlated
EIN set and all three signals. -/
def classifyAnalysis (o : Oracle) (eins : List String) (f : FileRef) : Option MatchResult :=
  let naiveMatch := naiveMatchAnalysis f
  let regionCodeMatch := regionMatchAnalysis f
  let aiMatch := aiMatchAnalysis o f
  if naiveMatch || regionCodeMatch || aiMatch then
    some ⟨f.description, f.location, eins, aiMatch, naiveMatch, regionCodeMatch⟩
  else none

/-- The sequence of `MatchResult`s printed by `checkInNetworkFiles` for a
list of decoded file references. -/
def checkInNetworkFilesList (o : Oracle) (eins : List String) (files : List FileRef) :
    List MatchResult :=
  files.filterMap (classifyAnalysis o eins)

/-- The EIN set built by `processReportingPlan`: ids whose lower-cased
`plan_id_type` is `"ein"`, deduplicated by id value. -/
def einsOf (plans : List ReportingPlan) : List String :=
  plans.foldl (fun acc p => if goToLower p.planIdType = "ein" then insertSet acc p.planId else acc) []

/-! ## The streaming walker, embedded over an explicit JSON value type -/

/-- JSON values.  The token stream the Go decoder reads is equivalent to
a walk over this tree; object fields keep their stream order, which is
what the field-order dependency of the walker is about. -/
inductive Json where
  | null
  | bool (b : Bool)
  | num (n : Int)
  | str (s : String)
  | arr (elems : List Json)
  | obj (fields : List (String × Json))

/-- The run mode, fixed once by `run` from the command line flag
(`-uniquePlans`, `-analysis` or `-heuristics`). -/
inductive Mode where
  | uniquePlans
  | analysis
  | heuristics
deriving DecidableEq, BEq, Repr

/-- The process-wide accumulator state plus the emitted result stream:
`plansFound`, `uniquePpoPrices`, and the sequence of records printed by
`printMatch`. -/
structure RunState where
  plansFound : List String
  uniquePpoPrices : List String
  emitted : List MatchResult
deriving Repr

def initialState : RunState := ⟨[], [], []⟩

/-- Decoding one string struct field from an object's field list: the Go
decoder processes keys in stream order, `null` leaves the field
untouched, a later duplicate overwrites, and a value of any other
non-string type is an unmarshal error. -/
def decodeStrField (key : String) : List (String × Json) → String → Except String String
  | [], acc => .ok acc
  | (k, v) :: rest, acc =>
    if k = key then
      match v with
      | .str s => decodeStrField key rest s
      | .null => decodeStrField key rest acc
      | _ => .error "cannot unmarshal value into string field"
    else decodeStrField key rest acc

/-- Decode one `in_network_files` element into `{description, location}`
(`json.Unmarshal` of `null` into a struct succeeds and leaves the zero
value). -/
def decodeFileRef (j : Json) : Except String FileRef :=
  match j with
  | .obj fields => do
    let d ← decodeStrField "description" fields ""
    let l ← decodeStrField "location" fields ""
    .ok ⟨d, l⟩
  | .null => .ok ⟨"", ""⟩
  | _ => .error "decode plan: not an object"

/-- Decode one `in_network_files` element for `getUniquePlans`, whose Go
struct only declares `Description`. -/
def decodeDescription (j : Json) : Except String String :=
  match j with
  | .obj fields => decodeStrField "description" fields ""
  | .null => .ok ""
  | _ => .error "decode plan: not an object"

/-- Decode one `reporting_plans` element into
`{plan_id_type, plan_id}`. -/
def decodeReportingPlan (j : Json) : Except String ReportingPlan :=
  match j with
  | .obj fields => do
    let t ← decodeStrField "plan_id_type" fields ""
    let i ← decodeStrField "plan_id" fields ""
    .ok ⟨t, i⟩
  | .null => .ok ⟨"", ""⟩
  | _ => .error "decode reporting plan: not an object"

/-- The `in_network_files` value must be an array of decodable
elements. -/
def decodeFiles (j : Json) : Except String (List FileRef) :=
  match j with
  | .arr elems => elems.mapM decodeFileRef
  | _ => .error "in_network_files is not an array"

/-- The `in_network_files` value as read by `getUniquePlans`. -/
def decodeDescriptions (j : Json) : Except String (List String) :=
  match j with
  | .arr elems => elems.mapM decodeDescription
  | _ => .error "in_network_files is not an array"

/-- `processReportingPlan`: the value must be an array; its elements are
decoded and the EIN set is built. -/
def processReportingPlanJ (j : Json) : Except String (List String) :=
  match j with
  | .arr elems => do
    let plans ← elems.mapM decodeReportingPlan
    .ok (einsOf plans)
  | _ => .error "reporting_plans is not an array"

/-- The emitted results of `checkInNetworkFiles` at the JSON level. -/
def checkInNetworkFilesJ (o : Oracle) (eins : List String) (j : Json) :
    Except String (List MatchResult) :=
  match j with
  | .arr elems => do
    let files ← elems.mapM decodeFileRef
    .ok (checkInNetworkFilesList o eins files)
  | _ => .error "in_network_files is not an array"

/-- One key of a reporting record, dispatched exactly as in
`scanReportingRecord`: the local state is the `RunState` plus the
record-scoped `eins` correlation list (started empty); every key other
than `in_network_files` (and, in analysis mode, `reporting_plans`) is
decoded into a raw message and discarded. -/
def recordStep (m : Mode) (o : Oracle) :
    RunState × List String → String × Json → Except String (RunState × List String)
  | (st, eins), (key, val) =>
    if key = "in_network_files" then
      match m with
      | .uniquePlans => do
        let descs ← decodeDescriptions val
        .ok ({ st with plansFound := descs.foldl uniquePlansStep st.plansFound }, eins)
      | .analysis => do
        let results ← checkInNetworkFilesJ o eins val
        .ok ({ st with emitted := st.emitted ++ results }, eins)
      | .heuristics => do
        let files ← decodeFiles val
        .ok ({ st with uniquePpoPrices := files.foldl heuristicsStep st.uniquePpoPrices }, eins)
    else if key = "reporting_plans" ∧ m = Mode.analysis then do
      let newEins ← processReportingPlanJ val
      .ok (st, newEins)
    else
      .ok (st, eins)

/-- `scanReportingRecord`: fold the record's fields in stream order with
an empty correlation list; the list is discarded when the record
ends. -/
def scanReportingRecord (m : Mode) (o : Oracle) (st : RunState)
    (fields : List (String × Json)) : Except String RunState :=
  (fields.foldlM (recordStep m o) (st, [])).map Prod.fst

/-- `parseReportingStructure`: the value must be an array and every
element must be an object, scanned in order. -/
def parseReportingStructure (m : Mode) (o : Oracle) (st : RunState) (j : Json) :
    Except String RunState :=
  match j with
  | .arr elems =>
    elems.foldlM
      (fun acc e =>
        match e with
        | .obj fields => scanReportingRecord m o acc fields
        | _ => .error "expected object in reporting_structure array")
      st
  | _ => .error "reporting_structure is not an array"

/-- `parseIndexFile`: the root must be an object; only the
`reporting_structure` key triggers descent, every other root field is
discarded. -/
def parseIndexFile (m : Mode) (o : Oracle) (j : Json) : Except String RunState :=
  match j with
  | .obj fields =>
    fields.foldlM
      (fun st kv =>
        if kv.1 = "reporting_structure" then parseReportingStructure m o st kv.2
        else .ok st)
      initialState
  | _ => .error "expected root object"

/-- `main` exits with code 1 exactly when `run` (which propagates any
`parseIndexFile` error) returns an error, and 0 otherwise. -/
def runExitCode (m : Mode) (o : Oracle) (j : Json) : Nat :=
  match parseIndexFile m o j with
  | .ok _ => 0
  | .error _ => 1

/-- A malformed top-level shape: the root is not an object, or a
`reporting_structure` field is not an array, or an element of that array
is not an object. -/
def malformedTopLevel (j : Json) : Prop :=
  (∀ fields, j ≠ .obj fields) ∨
    (∃ fields, j = .obj fields ∧
      ∃ p ∈ fields, p.1 = "reporting_structure" ∧
        ((∀ elems, p.2 ≠ .arr elems) ∨
          (∃ elems, p.2 = .arr elems ∧ ∃ e ∈ elems, ∀ fs, e ≠ .obj fs)))

/-! ## Helper lemmas about the extractor -/

theorem pathBase_ne_empty (p : String) : pathBase p ≠ "" := by
  simp only [pathBase]
  split
  · intro h
    exact absurd (congrArg String.data h) (by simp)
  · split
    · intro h
      exact absurd (congrArg String.data h) (by simp)
    · next hbase =>
      intro h
      exact hbase (by simpa using congrArg String.data h)

theorem strIndex_none_count (t : Char) (cs : List Char) (h : strIndex t cs = none) :
    charCount t cs = 0 := by
  induction cs with
  | nil => rfl
  | cons c cs ih =>
    unfold strIndex at h
    by_cases hc : c == t
    · simp [hc] at h
    · rw [if_neg (by simpa using hc)] at h
      simp only [Option.map_eq_none'] at h
      simp [charCount, List.countP_cons, hc] at ih ⊢
      exact ih h

theorem strIndex_some_count (t : Char) (cs : List Char) (i : Nat)
    (h : strIndex t cs = some i) :
    charCount t cs = charCount t (cs.drop (i + 1)) + 1 := by
  induction cs generalizing i with
  | nil => simp [strIndex] at h
  | cons c cs ih =>
    unfold strIndex at h
    by_cases hc : c == t
    · rw [if_pos (by simpa using hc)] at h
      injection h with h
      subst h
      simp [charCount, List.countP_cons, hc]
    · rw [if_neg (by simpa using hc)] at h
      cases h2 : strIndex t cs with
      | none => rw [h2] at h; simp at h
      | some j =>
        rw [h2] at h
        simp only [Option.map_some'] at h
        injection h with h
        subst h
        simp only [List.drop_succ_cons]
        simp [charCount, List.countP_cons, hc]
        exact ih j h2

theorem extractFromFilename_insufficient (cs : List Char) (h : charCount '_' cs < 3) :
    ∃ e, extractFromFilename cs = .error e ∧ insufficientSeparatorsClass e = true := by
  cases h1 : strIndex '_' cs with
  | none => exact ⟨.noUnderscores, by simp [extractFromFilename, h1], rfl⟩
  | some first =>
    have c1 := strIndex_some_count '_' cs first h1
    cases h2 : strIndex '_' (cs.drop (first + 1)) with
    | none => exact ⟨.notEnoughUnderscores, by simp [extractFromFilename, h1, h2], rfl⟩
    | some s2 =>
      have c2 := strIndex_some_count '_' (cs.drop (first + 1)) s2 h2
      cases h3 : strIndex '_' (cs.drop (s2 + (first + 1) + 1)) with
      | none => exact ⟨.notEnoughUnderscores, by simp [extractFromFilename, h1, h2, h3], rfl⟩
      | some t3 =>
        exfalso
        have c3 := strIndex_some_count '_' (cs.drop (s2 + (first + 1) + 1)) t3 h3
        have hd : (cs.drop (first + 1)).drop (s2 + 1) = cs.drop (s2 + (first + 1) + 1) := by
          rw [List.drop_drop]
          congr 1
          omega
        rw [hd] at c2
        omega

theorem extractFromFilename_no_invalid (cs : List Char) :
    extractFromFilename cs ≠ Except.error PlanCodeError.invalidSeparatorSpacing := by
  cases h1 : strIndex '_' cs with
  | none => simp [extractFromFilename, h1]
  | some first =>
    cases h2 : strIndex '_' (cs.drop (first + 1)) with
    | none => simp [extractFromFilename, h1, h2]
    | some s2 =>
      cases h3 : strIndex '_' (cs.drop (s2 + (first + 1) + 1)) with
      | none => simp [extractFromFilename, h1, h2, h3]
      | some t3 =>
        simp only [extractFromFilename, h1, h2, h3]
        rw [if_neg (by omega)]
        simp

/-! ## Claims about the plan-code extractor -/

/-- C3 counterexample: on the URL of the spec example, `ExtractPlanCode`
does not return `"AB12CD"` (the final segment has only two
underscores). -/
theorem c3_counterexample :
    ExtractPlanCode "https://host/path/FILE_AB12CD_2024.json" ≠ Except.ok "AB12CD" := by
  have h : ExtractPlanCode "https://host/path/FILE_AB12CD_2024.json"
      = Except.error PlanCodeError.notEnoughUnderscores := rfl
  rw [h]
  exact fun hh => Except.noConfusion hh

/-- C3 (amended): on the spec's example URL, whose final segment has only
two underscores, `ExtractPlanCode` fails with the
insufficient-underscores error; on a segment with three underscores the
substring strictly between the first and third underscore is returned
(including the middle underscore, matching the region-code format). -/
theorem c3_amended_two_underscores :
    ExtractPlanCode "https://host/path/FILE_AB12CD_2024.json"
        = Except.error PlanCodeError.notEnoughUnderscores
    ∧ ExtractPlanCode "https://host/path/FILE_AB12CD_2024_01.json" = Except.ok "AB12CD_2024" :=
  ⟨rfl, rfl⟩

/-- C7 counterexample: the URL `https://host/` parses, its final path
segment (`"/"`, the path-root marker) contains fewer than three
underscores, yet extraction fails with the `NoFilename` error, which is
not in the InsufficientSeparators class. -/
theorem c7_counterexample :
    underscoreCount (pathBase (urlPath "https://host/")) < 3
    ∧ ExtractPlanCode "https://host/" = Except.error PlanCodeError.noFilename
    ∧ insufficientSeparatorsClass PlanCodeError.noFilename = false :=
  ⟨by decide, rfl, rfl⟩

/-- C7 (amended): for every URL path whose final segment is a real
filename (not the path-root marker) containing fewer than three
underscores, extraction fails with an error of the
InsufficientSeparators class — never a partial token. -/
theorem c7_amended_insufficient_separators (p : String)
    (hseg : pathBase p ≠ "/") (hcount : underscoreCount (pathBase p) < 3) :
    ∃ e, ExtractPlanCodePath p = .error e ∧ insufficientSeparatorsClass e = true := by
  have hne : pathBase p ≠ "" := pathBase_ne_empty p
  simp only [ExtractPlanCodePath]
  rw [if_neg (by tauto)]
  obtain ⟨e, he, hc⟩ := extractFromFilename_insufficient (pathBase p).data hcount
  exact ⟨e, by rw [he]; rfl, hc⟩

theorem c7_amended_witness :
    ∃ e, ExtractPlanCodePath "/path/noseparators.json" = .error e
      ∧ insufficientSeparatorsClass e = true :=
  c7_amended_insufficient_separators "/path/noseparators.json" (by decide) (by decide)

/-- C10: the invalid-spacing guard (`third <= first+1`) is unreachable:
`ExtractPlanCode` never returns the `InvalidSeparatorSpacing` error for
any input URL, because the third underscore is always found strictly
after the second, which is strictly after the first. -/
theorem c10_invalid_spacing_unreachable (rawURL : String) :
    isInvalidSpacing (ExtractPlanCode rawURL) = false := by
  simp only [ExtractPlanCode, ExtractPlanCodePath]
  split
  · rfl
  · cases h : extractFromFilename (pathBase (urlPath rawURL)).data with
    | ok cs => simp [Except.map, isInvalidSpacing]
    | error e =>
      have hne := extractFromFilename_no_invalid (pathBase (urlPath rawURL)).data
      rw [h] at hne
      cases e <;> simp_all [Except.map, isInvalidSpacing]

/-! ## Claims about the dead lower-case checks (C1, C2) -/

/-- C1: in AssistedMatch (analysis) mode the region-code check is dead.
At the failing input, Plan Code Extraction succeeds with `"301_71a0"`,
whose lower-cased form is in the lower-cased region-code table the spec
describes; yet the emitted `MatchResult` (driven by `naiveMatch`) has
`regionCodeMatch = false`, because `checkInNetworkFiles` looks the
lower-cased code up in its mode-local table whose entries are
upper-cased. -/
theorem c1_analysis_region_table_dead :
    ExtractPlanCode "https://host/p/x_301_71a0_e.json" = Except.ok "301_71a0"
    ∧ regionCodes.contains (goToLower "301_71a0") = true
    ∧ classifyAnalysis oracleAlwaysError []
        ⟨"new york ppo plan", "https://host/p/x_301_71a0_e.json"⟩
      = some ⟨"new york ppo plan", "https://host/p/x_301_71a0_e.json", [], false, true, false⟩ :=
  ⟨rfl, rfl, rfl⟩

/-- C2: the placeholder skip in `getUniquePlans` is dead.  Feeding the
reserved placeholder description produces an output set containing its
lower-cased form, which equals the placeholder compared
case-insensitively — the skip compares the lower-cased description
against the mixed-case literal and never fires. -/
theorem c2_placeholder_not_skipped :
    getUniquePlansList ["In-Network Negotiated Rates Files"]
        = ["in-network negotiated rates files"]
    ∧ goToLower "in-network negotiated rates files"
        = goToLower "In-Network Negotiated Rates Files" :=
  ⟨rfl, rfl⟩

/-! ## Set-accumulator lemmas -/

theorem mem_insertSet {s : List String} {x y : String} :
    y ∈ insertSet s x ↔ y ∈ s ∨ y = x := by
  unfold insertSet
  by_cases hx : x ∈ s
  · rw [if_pos hx]
    constructor
    · exact fun h => Or.inl h
    · rintro (h | rfl)
      · exact h
      · exact hx
  · rw [if_neg hx]
    simp only [List.mem_cons]
    tauto

theorem nodup_insertSet {s : List String} (h : s.Nodup) (x : String) :
    (insertSet s x).Nodup := by
  unfold insertSet
  by_cases hx : x ∈ s
  · rwa [if_pos hx]
  · rw [if_neg hx]
    exact List.nodup_cons.mpr ⟨hx, h⟩

/-! ## Claim C8: the EIN correlation set -/

theorem mem_einsFold (plans : List ReportingPlan) :
    ∀ (acc : List String) (a : String),
      a ∈ plans.foldl
            (fun acc p =>
              if goToLower p.planIdType = "ein" then insertSet acc p.planId else acc)
            acc
        ↔ a ∈ acc ∨ ∃ p ∈ plans, goToLower p.planIdType = "ein" ∧ p.planId = a := by
  induction plans with
  | nil => intro acc a; simp
  | cons q plans ih =>
    intro acc a
    rw [List.foldl_cons, ih]
    by_cases hq : goToLower q.planIdType = "ein"
    · rw [if_pos hq]
      rw [mem_insertSet]
      simp only [List.mem_cons]
      constructor
      · rintro ((h | rfl) | ⟨p, hp, h1, h2⟩)
        · exact Or.inl h
        · exact Or.inr ⟨q, Or.inl rfl, hq, rfl⟩
        · exact Or.inr ⟨p, Or.inr hp, h1, h2⟩
      · rintro (h | ⟨p, (rfl | hp), h1, h2⟩)
        · exact Or.inl (Or.inl h)
        · exact Or.inl (Or.inr h2.symm)
        · exact Or.inr ⟨p, hp, h1, h2⟩
    · rw [if_neg hq]
      simp only [List.mem_cons]
      constructor
      · rintro (h | ⟨p, hp, h1, h2⟩)
        · exact Or.inl h
        · exact Or.inr ⟨p, Or.inr hp, h1, h2⟩
      · rintro (h | ⟨p, (rfl | hp), h1, h2⟩)
        · exact Or.inl h
        · exact absurd h1 hq
        · exact Or.inr ⟨p, hp, h1, h2⟩

theorem nodup_einsFold (plans : List ReportingPlan) :
    ∀ (acc : List String), acc.Nodup →
      (plans.foldl
        (fun acc p =>
          if goToLower p.planIdType = "ein" then insertSet acc p.planId else acc)
        acc).Nodup := by
  induction plans with
  | nil => intro acc h; exact h
  | cons q plans ih =>
    intro acc h
    rw [List.foldl_cons]
    apply ih
    by_cases hq : goToLower q.planIdType = "ein"
    · rw [if_pos hq]; exact nodup_insertSet h q.planId
    · rwa [if_neg hq]

/-- C8: an id is in the correlated set built by `processReportingPlan`
iff some entry of the list carries it with an `idType` that equals
`"ein"` case-insensitively; the set is duplicate-free (keyed by the id
value, case-sensitively), and membership is order-irrelevant by
construction. -/
theorem c8_ein_set_characterization (plans : List ReportingPlan) :
    (∀ a, a ∈ einsOf plans
        ↔ ∃ p ∈ plans, goToLower p.planIdType = "ein" ∧ p.planId = a)
    ∧ (einsOf plans).Nodup := by
  constructor
  · intro a
    unfold einsOf
    rw [mem_einsFold]
    simp
  · exact nodup_einsFold plans [] List.nodup_nil

/-! ## Claim C5: the heuristics-mode AND gate -/

theorem mem_heuristicsFold (files : List FileRef) :
    ∀ (acc : List String) (loc : String),
      loc ∈ files.foldl heuristicsStep acc
        ↔ loc ∈ acc
          ∨ ∃ f ∈ files, planMatchHeuristics f = true ∧ regionMatchHeuristics f = true
              ∧ f.location = loc := by
  induction files with
  | nil => intro acc loc; simp
  | cons g files ih =>
    intro acc loc
    rw [List.foldl_cons, ih]
    have hstep : loc ∈ heuristicsStep acc g
        ↔ loc ∈ acc
          ∨ (planMatchHeuristics g = true ∧ regionMatchHeuristics g = true
              ∧ g.location = loc) := by
      unfold heuristicsStep
      by_cases hp : planMatchHeuristics g
      · rw [if_pos hp]
        by_cases hr : regionMatchHeuristics g
        · rw [if_pos hr, mem_insertSet]
          constructor
          · rintro (h | rfl)
            · exact Or.inl h
            · exact Or.inr ⟨hp, hr, rfl⟩
          · rintro (h | ⟨_, _, rfl⟩)
            · exact Or.inl h
            · exact Or.inr rfl
        · rw [if_neg hr]
          constructor
          · exact fun h => Or.inl h
          · rintro (h | ⟨_, h2, _⟩)
            · exact h
            · exact absurd h2 hr
      · rw [if_neg hp]
        constructor
        · exact fun h => Or.inl h
        · rintro (h | ⟨h1, _, _⟩)
          · exact h
          · exact absurd h1 hp
    rw [hstep]
    simp only [List.mem_cons]
    constructor
    · rintro ((h | ⟨h1, h2, h3⟩) | ⟨f, hf, h1, h2, h3⟩)
      · exact Or.inl h
      · exact Or.inr ⟨g, Or.inl rfl, h1, h2, h3⟩
      · exact Or.inr ⟨f, Or.inr hf, h1, h2, h3⟩
    · rintro (h | ⟨f, (rfl | hf), h1, h2, h3⟩)
      · exact Or.inl (Or.inl h)
      · exact Or.inl (Or.inr ⟨h1, h2, h3⟩)
      · exact Or.inr ⟨f, hf, h1, h2, h3⟩

/-- C5: in HeuristicMatch mode a location belongs to the matched set iff
some processed `FileReference` carries it with its lower-cased
description a member of the PPO-plan table and its extracted lower-cased
plan code a member of the region-code table — table membership of the
description is a hard gate and both signals are required (AND, not
OR). -/
theorem c5_heuristics_and_gate (files : List FileRef) (loc : String) :
    loc ∈ getPpoPricesByHeuristicsList files
      ↔ ∃ f ∈ files, planMatchHeuristics f = true ∧ regionMatchHeuristics f = true
          ∧ f.location = loc := by
  unfold getPpoPricesByHeuristicsList
  rw [mem_heuristicsFold]
  simp

/-! ## Claim C6: degradation when the external service always errors -/

/-- Forget the aiMatch signal of an emitted record. -/
def clearAi (r : MatchResult) : MatchResult :=
  ⟨r.description, r.location, r.eins, false, r.heuristicMatch, r.regionCodeMatch⟩

theorem aiMatchAnalysis_always_error (f : FileRef) :
    aiMatchAnalysis oracleAlwaysError f = false := rfl

theorem classifyAnalysis_always_error_eq (o : Oracle) (eins : List String) (f : FileRef) :
    classifyAnalysis oracleAlwaysError eins f
      = (classifyAnalysis o eins f).bind
          (fun r => if r.heuristicMatch || r.regionCodeMatch then some (clearAi r) else none) := by
  cases hn : naiveMatchAnalysis f <;> cases hr : regionMatchAnalysis f <;>
    cases ha : aiMatchAnalysis o f <;>
    simp [classifyAnalysis, hn, hr, ha, aiMatchAnalysis_always_error, clearAi]

/-- C6: with a service that errors on every call, every emitted record
has `aiMatch = false`; the emitted stream is exactly the stream a
working service would emit, restricted to the records driven by the
`naiveMatch` (`heuristicMatch` field) or `regionCodeMatch` signals with
their `aiMatch` cleared — and whether processing of the
`in_network_files` value aborts does not depend on the service at
all. -/
theorem c6_graceful_degradation (o : Oracle) (eins : List String)
    (files : List FileRef) (j : Json) :
    (∀ r ∈ checkInNetworkFilesList oracleAlwaysError eins files, r.aiMatch = false)
    ∧ checkInNetworkFilesList oracleAlwaysError eins files
        = (checkInNetworkFilesList o eins files).filterMap
            (fun r => if r.heuristicMatch || r.regionCodeMatch then some (clearAi r) else none)
    ∧ (checkInNetworkFilesJ oracleAlwaysError eins j).isOk
        = (checkInNetworkFilesJ o eins j).isOk := by
  refine ⟨?_, ?_, ?_⟩
  · intro r hr
    rw [checkInNetworkFilesList, List.mem_filterMap] at hr
    obtain ⟨f, hf, hc⟩ := hr
    simp only [classifyAnalysis] at hc
    split at hc
    · injection hc with hc
      subst hc
      exact aiMatchAnalysis_always_error f
    · exact absurd hc (by simp)
  · rw [checkInNetworkFilesList, checkInNetworkFilesList, List.filterMap_filterMap]
    congr 1
    funext f
    exact classifyAnalysis_always_error_eq o eins f
  · cases j with
    | arr elems =>
      simp only [checkInNetworkFilesJ]
      cases h : elems.mapM decodeFileRef with
      | ok files2 => rfl
      | error e => rfl
    | null => rfl
    | bool b => rfl
    | num n => rfl
    | str s => rfl
    | obj fields => rfl

/-! ## Walker lemmas -/

theorem foldlM_error_of_mem {α β : Type} (f : β → α → Except String β) (l : List α) (x : α)
    (hx : x ∈ l) (hf : ∀ b, ∃ msg, f b x = .error msg) :
    ∀ b, ∃ msg, l.foldlM f b = .error msg := by
  induction l with
  | nil => cases hx
  | cons a l ih =>
    intro b
    rcases List.mem_cons.mp hx with rfl | hx2
    · obtain ⟨msg, hm⟩ := hf b
      exact ⟨msg, by rw [List.foldlM_cons, hm]; rfl⟩
    · cases h : f b a with
      | error e => exact ⟨e, by rw [List.foldlM_cons, h]; rfl⟩
      | ok b2 =>
        obtain ⟨msg, hm⟩ := ih hx2 b2
        exact ⟨msg, by rw [List.foldlM_cons, h]; exact hm⟩

theorem classifyAnalysis_eins (o : Oracle) (eins : List String) (f : FileRef)
    (r : MatchResult) (h : classifyAnalysis o eins f = some r) : r.eins = eins := by
  simp only [classifyAnalysis] at h
  split at h
  · injection h with h
    subst h
    rfl
  · exact Option.noConfusion h

theorem checkInNetworkFilesJ_eins (o : Oracle) (eins : List String) (j : Json)
    (results : List MatchResult) (h : checkInNetworkFilesJ o eins j = .ok results) :
    ∀ r ∈ results, r.eins = eins := by
  cases j with
  | arr elems =>
    simp only [checkInNetworkFilesJ] at h
    cases hm : elems.mapM decodeFileRef with
    | error e => rw [hm] at h; exact Except.noConfusion h
    | ok files =>
      rw [hm] at h
      injection h with h
      subst h
      intro r hr
      rw [checkInNetworkFilesList, List.mem_filterMap] at hr
      obtain ⟨f, _, hc⟩ := hr
      exact classifyAnalysis_eins o eins f r hc
  | null => exact Except.noConfusion h
  | bool b => exact Except.noConfusion h
  | num n => exact Except.noConfusion h
  | str s => exact Except.noConfusion h
  | obj fields => exact Except.noConfusion h

theorem recordStep_analysis_no_rp (o : Oracle) (st : RunState) (key : String) (val : Json)
    (hk : key ≠ "reporting_plans") (se : RunState × List String)
    (h : recordStep Mode.analysis o (st, []) (key, val) = .ok se) :
    se.2 = [] ∧ ∃ new, se.1.emitted = st.emitted ++ new ∧ ∀ r ∈ new, r.eins = [] := by
  simp only [recordStep] at h
  by_cases h1 : key = "in_network_files"
  · rw [if_pos h1] at h
    cases hc : checkInNetworkFilesJ o [] val with
    | error e => rw [hc] at h; exact Except.noConfusion h
    | ok results =>
      rw [hc] at h
      injection h with h
      subst h
      exact ⟨rfl, results, rfl, checkInNetworkFilesJ_eins o [] val results hc⟩
  · rw [if_neg h1] at h
    rw [if_neg (fun hh => hk hh.1)] at h
    injection h with h
    subst h
    exact ⟨rfl, [], by simp, by intro r hr; cases hr⟩

theorem recordFold_no_rp (o : Oracle) (l : List (String × Json))
    (hl : ∀ p ∈ l, p.1 ≠ "reporting_plans") :
    ∀ (st : RunState) (res : RunState × List String),
      l.foldlM (recordStep Mode.analysis o) (st, []) = .ok res →
      res.2 = [] ∧ ∃ new, res.1.emitted = st.emitted ++ new ∧ ∀ r ∈ new, r.eins = [] := by
  induction l with
  | nil =>
    intro st res h
    rw [List.foldlM_nil] at h
    injection h with h
    subst h
    exact ⟨rfl, [], by simp, by intro r hr; cases hr⟩
  | cons kv l ih =>
    intro st res h
    obtain ⟨key, val⟩ := kv
    rw [List.foldlM_cons] at h
    cases hs : recordStep Mode.analysis o (st, []) (key, val) with
    | error e => rw [hs] at h; exact Except.noConfusion h
    | ok se =>
      rw [hs] at h
      have h2 : l.foldlM (recordStep Mode.analysis o) se = .ok res := h
      obtain ⟨se1, se2⟩ := se
      obtain ⟨hse2, new0, hemit0, heins0⟩ :=
        recordStep_analysis_no_rp o st key val (hl _ (List.mem_cons_self _ _)) (se1, se2) hs
      cases hse2
      obtain ⟨hres2, new1, hemit1, heins1⟩ :=
        ih (fun p hp => hl p (List.mem_cons_of_mem _ hp)) se1 res h2
      refine ⟨hres2, new0 ++ new1, ?_, ?_⟩
      · rw [hemit1, hemit0, List.append_assoc]
      · intro r hr
        rcases List.mem_append.mp hr with hr0 | hr1
        · exact heins0 r hr0
        · exact heins1 r hr1

theorem recordStep_other_state (o : Oracle) (se : RunState × List String)
    (key : String) (val : Json) (hk : key ≠ "in_network_files")
    (res : RunState × List String)
    (h : recordStep Mode.analysis o se (key, val) = .ok res) :
    res.1 = se.1 := by
  obtain ⟨st, e⟩ := se
  simp only [recordStep] at h
  rw [if_neg hk] at h
  by_cases h2 : key = "reporting_plans"
  · rw [if_pos ⟨h2, trivial⟩] at h
    cases hp : processReportingPlanJ val with
    | error e2 => rw [hp] at h; exact Except.noConfusion h
    | ok eins2 =>
      rw [hp] at h
      injection h with h
      subst h
      rfl
  · rw [if_neg (fun hh => h2 hh.1)] at h
    injection h with h
    subst h
    rfl

theorem recordFold_no_inf (o : Oracle) (l : List (String × Json))
    (hl : ∀ p ∈ l, p.1 ≠ "in_network_files") :
    ∀ (se : RunState × List String) (res : RunState × List String),
      l.foldlM (recordStep Mode.analysis o) se = .ok res → res.1.emitted = se.1.emitted := by
  induction l with
  | nil =>
    intro se res h
    rw [List.foldlM_nil] at h
    injection h with h
    subst h
    rfl
  | cons kv l ih =>
    intro se res h
    obtain ⟨key, val⟩ := kv
    rw [List.foldlM_cons] at h
    cases hs : recordStep Mode.analysis o se (key, val) with
    | error e => rw [hs] at h; exact Except.noConfusion h
    | ok mid =>
      rw [hs] at h
      have h2 : l.foldlM (recordStep Mode.analysis o) mid = .ok res := h
      have hmid : mid.1 = se.1 :=
        recordStep_other_state o se key val (hl _ (List.mem_cons_self _ _)) mid hs
      have := ih (fun p hp => hl p (List.mem_cons_of_mem _ hp)) mid res h2
      rw [this, hmid]

/-! ## Claim C4: the field-order dependency -/

/-- C4: for any reporting record in which every `in_network_files` field
comes before every `reporting_plans` field, the results emitted while
scanning that record all carry the empty EIN set — the walker never
buffers ahead, so identifiers listed later in the record are invisible
when the file references are classified. -/
theorem c4_field_order_dependency (o : Oracle) (st : RunState)
    (l1 l2 : List (String × Json))
    (h1 : ∀ p ∈ l1, p.1 ≠ "reporting_plans")
    (h2 : ∀ p ∈ l2, p.1 ≠ "in_network_files")
    (st2 : RunState)
    (h : scanReportingRecord Mode.analysis o st (l1 ++ l2) = .ok st2) :
    ∃ new, st2.emitted = st.emitted ++ new ∧ ∀ r ∈ new, r.eins = [] := by
  unfold scanReportingRecord at h
  rw [List.foldlM_append] at h
  cases ha : l1.foldlM (recordStep Mode.analysis o) (st, []) with
  | error e => rw [ha] at h; exact Except.noConfusion h
  | ok mid =>
    rw [ha] at h
    obtain ⟨-, new, hemit, heins⟩ := recordFold_no_rp o l1 h1 st mid ha
    have h3 : (l2.foldlM (recordStep Mode.analysis o) mid).map Prod.fst = .ok st2 := h
    cases hb : l2.foldlM (recordStep Mode.analysis o) mid with
    | error e => rw [hb] at h3; exact Except.noConfusion h3
    | ok fin =>
      rw [hb] at h3
      injection h3 with h3
      subst h3
      have hfin : fin.1.emitted = mid.1.emitted := recordFold_no_inf o l2 h2 mid fin hb
      exact ⟨new, by rw [hfin, hemit], heins⟩

/-- A concrete file reference used to exercise the field-order
dependency: the description fires the naive signal, so a record is
emitted. -/
def c4File : Json :=
  Json.obj [("description", Json.str "new york ppo plan"),
            ("location", Json.str "https://host/a_b_c_d.json")]

/-- A concrete `reporting_plans` value holding an EIN identifier. -/
def c4Plans : Json :=
  Json.arr [Json.obj [("plan_id_type", Json.str "EIN"), ("plan_id", Json.str "123")]]

theorem c4_witness :
    ∃ new,
      (RunState.mk [] []
          [⟨"new york ppo plan", "https://host/a_b_c_d.json", [], false, true, false⟩]).emitted
        = initialState.emitted ++ new
      ∧ ∀ r ∈ new, r.eins = [] :=
  c4_field_order_dependency oracleAlwaysError initialState
    [("in_network_files", Json.arr [c4File])] [("reporting_plans", c4Plans)]
    (by intro p hp; rw [List.mem_singleton] at hp; subst hp; decide)
    (by intro p hp; rw [List.mem_singleton] at hp; subst hp; decide)
    (RunState.mk [] []
      [⟨"new york ppo plan", "https://host/a_b_c_d.json", [], false, true, false⟩])
    rfl

/-! ## Claim C9: malformed top-level shapes are fatal -/

/-- C9: every malformed top-level shape — root not an object, a
`reporting_structure` field whose value is not an array, or an element
of that array that is not an object — makes the walker return an error
(so no result state is produced at all) and the process exit code is
nonzero. -/
theorem c9_malformed_top_level_fatal (m : Mode) (o : Oracle) (j : Json)
    (h : malformedTopLevel j) :
    ∃ msg, parseIndexFile m o j = .error msg ∧ runExitCode m o j = 1 := by
  have herr : ∃ msg, parseIndexFile m o j = .error msg := by
    rcases h with hroot | ⟨fields, rfl, p, hp, hkey, hval⟩
    · cases j with
      | obj fields => exact absurd rfl (hroot fields)
      | null => exact ⟨"expected root object", rfl⟩
      | bool b => exact ⟨"expected root object", rfl⟩
      | num n => exact ⟨"expected root object", rfl⟩
      | str s => exact ⟨"expected root object", rfl⟩
      | arr elems => exact ⟨"expected root object", rfl⟩
    · apply foldlM_error_of_mem _ fields p hp _ initialState
      intro st
      obtain ⟨key, val⟩ := p
      simp only at hkey
      subst hkey
      rw [if_pos rfl]
      rcases hval with hnarr | ⟨elems, hval, e, he, hne⟩
      · cases val with
        | arr elems => exact absurd rfl (hnarr elems)
        | null => exact ⟨"reporting_structure is not an array", rfl⟩
        | bool b => exact ⟨"reporting_structure is not an array", rfl⟩
        | num n => exact ⟨"reporting_structure is not an array", rfl⟩
        | str s => exact ⟨"reporting_structure is not an array", rfl⟩
        | obj fs => exact ⟨"reporting_structure is not an array", rfl⟩
      · simp only at hval
        subst hval
        apply foldlM_error_of_mem _ elems e he
        intro acc
        cases e with
        | obj fs => exact absurd rfl (hne fs)
        | null => exact ⟨"expected object in reporting_structure array", rfl⟩
        | bool b => exact ⟨"expected object in reporting_structure array", rfl⟩
        | num n => exact ⟨"expected object in reporting_structure array", rfl⟩
        | str s => exact ⟨"expected object in reporting_structure array", rfl⟩
        | arr es => exact ⟨"expected object in reporting_structure array", rfl⟩
  obtain ⟨msg, hmsg⟩ := herr
  exact ⟨msg, hmsg, by rw [runExitCode, hmsg]⟩

theorem c9_witness :
    ∃ msg, parseIndexFile Mode.analysis oracleAlwaysError (Json.str "x") = .error msg
      ∧ runExitCode Mode.analysis oracleAlwaysError (Json.str "x") = 1 :=
  c9_malformed_top_level_fatal Mode.analysis oracleAlwaysError (Json.str "x")
    (Or.inl (fun _ hh => Json.noConfusion hh))
